import Mathlib

set_option maxRecDepth 100000

/-!
Verification of the retrieval-and-chunking core of the voice_helper
repository (src/linguistics/rag/chunker.py and
src/linguistics/rag/retriever.py), as a shallow embedding in Lean 4.

External dependencies of the code are modelled as follows:
* the tiktoken tokenizer is an abstract `Tokenizer` (encode/decode pair);
  `charTok` is a concrete executable instance used for concrete runs;
* hashlib.sha256 is implemented in full (FIPS 180-4) so that chunk ids
  are computed exactly as the source computes them;
* the ChromaDB vector store is abstracted by passing its reply
  (`QueryReply` / `GetReply`, possibly an exception) as a parameter;
* Python floats are modelled as rationals;
* Python exceptions are modelled with `Except` / explicit error options,
  and generator semantics as "list of chunks emitted before the first
  uncaught exception, paired with the optional exception".
-/

namespace VoiceHelper

/-! ## Python string helpers -/

/-- Whitespace characters recognised by Python's str.strip (ASCII part). -/
def isPyWs (c : Char) : Bool :=
  c = ' ' || c = '\t' || c = '\n' || c = '\r' || c = Char.ofNat 11 || c = Char.ofNat 12

/-- Python str.strip(): drop leading and trailing whitespace. -/
def pyStrip (s : String) : String :=
  String.mk (((s.data.dropWhile isPyWs).reverse.dropWhile isPyWs).reverse)

/-- Python truthiness of a string: non-empty. -/
def pyTruthy (s : String) : Bool := !s.data.isEmpty

/-- Helper for splitting a string at newline characters. -/
def splitNlGo : List Char → List Char → List String
  | [], acc => [String.mk acc.reverse]
  | c :: rest, acc =>
      if c = '\n' then String.mk acc.reverse :: splitNlGo rest []
      else splitNlGo rest (c :: acc)

/-- Python str.split('\n'). -/
def pySplitNewline (s : String) : List String := splitNlGo s.data []

/-- Python sep.join(parts). -/
def joinWith (sep : String) : List String → String
  | [] => ""
  | [x] => x
  | x :: y :: rest => x ++ sep ++ joinWith sep (y :: rest)

/-- Python list slice l[start:stop] with a non-negative start index and a
possibly negative stop index (negative counts from the end). -/
def pySlice {α : Type} (l : List α) (start : Nat) (stop : Int) : List α :=
  let stopN : Nat := if stop < 0 then ((l.length : Int) + stop).toNat else stop.toNat
  (l.take stopN).drop start

/-- Decimal digits of a natural number, most significant first, with a
fuel argument making the recursion structural (fuel ≥ n suffices). -/
def natDigitsGo : Nat → Nat → List Nat
  | 0, n => [n % 10]
  | fuel + 1, n => if n < 10 then [n] else natDigitsGo fuel (n / 10) ++ [n % 10]

/-- Decimal digits of a natural number, most significant first
(the digit list of Python's decimal formatting). -/
def natDigits (n : Nat) : List Nat := natDigitsGo n n

/-- Decimal digit characters of a natural number. -/
def natDecimalChars (n : Nat) : List Char :=
  (natDigits n).map (fun d => Char.ofNat (48 + d))

/-- Python str(n) / f-string formatting for an integer. -/
def pyIntRepr (n : Int) : String :=
  if n < 0 then String.mk ('-' :: natDecimalChars (-n).toNat)
  else String.mk (natDecimalChars n.toNat)

/-- The value a digit list denotes in base 10 (specification device for
proving the decimal rendering injective). -/
def unDigits (l : List Nat) : Nat := l.foldl (fun a d => a * 10 + d) 0

/-! ## UTF-8 encoding (Python's str.encode('utf-8')) -/

/-- UTF-8 bytes of a single character. -/
def utf8EncodeChar (c : Char) : List Nat :=
  let n := c.toNat
  if n < 128 then [n]
  else if n < 2048 then [192 + n / 64, 128 + n % 64]
  else if n < 65536 then [224 + n / 4096, 128 + (n / 64) % 64, 128 + n % 64]
  else [240 + n / 262144, 128 + (n / 4096) % 64, 128 + (n / 64) % 64, 128 + n % 64]

/-- UTF-8 bytes of a string. -/
def utf8Bytes (s : String) : List Nat :=
  s.data.flatMap utf8EncodeChar

/-! ## SHA-256 (hashlib.sha256, FIPS 180-4) -/

/-- The word modulus of SHA-256, 2^32. -/
def M32 : Nat := 4294967296

/-- Bitwise complement on 32-bit words. -/
def not32 (x : Nat) : Nat := 4294967295 - x

/-- Right rotation of a 32-bit word by n bits (n ≤ 32). -/
def rotr32 (x n : Nat) : Nat := x / 2 ^ n + x % 2 ^ n * 2 ^ (32 - n)

/-- The 64 SHA-256 round constants. -/
def K256 : List Nat :=
  [1116352408, 1899447441, 3049323471, 3921009573, 961987163, 1508970993,
   2453635748, 2870763221, 3624381080, 310598401, 607225278, 1426881987,
   1925078388, 2162078206, 2614888103, 3248222580, 3835390401, 4022224774,
   264347078, 604807628, 770255983, 1249150122, 1555081692, 1996064986,
   2554220882, 2821834349, 2952996808, 3210313671, 3336571891, 3584528711,
   113926993, 338241895, 666307205, 773529912, 1294757372, 1396182291,
   1695183700, 1986661051, 2177026350, 2456956037, 2730485921, 2820302411,
   3259730800, 3345764771, 3516065817, 3600352804, 4094571909, 275423344,
   430227734, 506948616, 659060556, 883997877, 958139571, 1322822218,
   1537002063, 1747873779, 1955562222, 2024104815, 2227730452, 2361852424,
   2428436474, 2756734187, 3204031479, 3329325298]

/-- The eight 32-bit working variables of SHA-256. -/
structure H8 where
  a : Nat
  b : Nat
  c : Nat
  d : Nat
  e : Nat
  f : Nat
  g : Nat
  h : Nat
deriving Repr, DecidableEq

/-- SHA-256 initial hash value. -/
def H8init : H8 :=
  ⟨1779033703, 3144134277, 1013904242, 2773480762,
   1359893119, 2600822924, 528734635, 1541459225⟩

/-- One SHA-256 compression round. -/
def sha256Round (s : H8) (k w : Nat) : H8 :=
  let s1 := rotr32 s.e 6 ^^^ rotr32 s.e 11 ^^^ rotr32 s.e 25
  let ch := (s.e &&& s.f) ^^^ (not32 s.e &&& s.g)
  let t1 := (s.h + s1 + ch + k + w) % M32
  let s0 := rotr32 s.a 2 ^^^ rotr32 s.a 13 ^^^ rotr32 s.a 22
  let maj := (s.a &&& s.b) ^^^ (s.a &&& s.c) ^^^ (s.b &&& s.c)
  let t2 := (s0 + maj) % M32
  ⟨(t1 + t2) % M32, s.a, s.b, s.c, (s.d + t1) % M32, s.e, s.f, s.g⟩

/-- Group a byte list into big-endian 32-bit words. -/
def bytesToWords : List Nat → List Nat
  | b0 :: b1 :: b2 :: b3 :: rest =>
      (b0 * 16777216 + b1 * 65536 + b2 * 256 + b3) :: bytesToWords rest
  | _ => []

/-- Extend the 16-word message schedule, appending n further words. -/
def extendSchedule (w : List Nat) : Nat → List Nat
  | 0 => w
  | n + 1 =>
      let l := w.length
      let s0v := rotr32 (w.getD (l - 15) 0) 7 ^^^ rotr32 (w.getD (l - 15) 0) 18 ^^^
        (w.getD (l - 15) 0) / 8
      let s1v := rotr32 (w.getD (l - 2) 0) 17 ^^^ rotr32 (w.getD (l - 2) 0) 19 ^^^
        (w.getD (l - 2) 0) / 1024
      extendSchedule (w ++ [(w.getD (l - 16) 0 + s0v + w.getD (l - 7) 0 + s1v) % M32]) n

/-- SHA-256 compression of one 64-byte block. -/
def sha256Block (st : H8) (block : List Nat) : H8 :=
  let ws := extendSchedule (bytesToWords block) 48
  let r := (K256.zip ws).foldl (fun s kw => sha256Round s kw.1 kw.2) st
  ⟨(st.a + r.a) % M32, (st.b + r.b) % M32, (st.c + r.c) % M32, (st.d + r.d) % M32,
   (st.e + r.e) % M32, (st.f + r.f) % M32, (st.g + r.g) % M32, (st.h + r.h) % M32⟩

/-- Fold SHA-256 compression over all 64-byte blocks of a padded message,
with a fuel argument making the recursion structural (fuel ≥ the number of
blocks suffices; the padded message is consumed 64 bytes per step). -/
def sha256BlocksGo : Nat → H8 → List Nat → H8
  | 0, st, _ => st
  | fuel + 1, st, msg =>
      if msg.isEmpty then st
      else sha256BlocksGo fuel (sha256Block st (msg.take 64)) (msg.drop 64)

/-- Fold SHA-256 compression over all 64-byte blocks of a padded message. -/
def sha256Blocks (st : H8) (msg : List Nat) : H8 :=
  sha256BlocksGo msg.length st msg

/-- Big-endian 8-byte encoding of the bit length. -/
def be64 (n : Nat) : List Nat :=
  [n / 72057594037927936 % 256, n / 281474976710656 % 256, n / 1099511627776 % 256,
   n / 4294967296 % 256, n / 16777216 % 256, n / 65536 % 256, n / 256 % 256, n % 256]

/-- SHA-256 padding: 0x80, zeros to 56 mod 64, then the 64-bit bit length. -/
def sha256Pad (msg : List Nat) : List Nat :=
  msg ++ [128] ++ List.replicate ((119 - msg.length % 64) % 64) 0 ++ be64 (msg.length * 8)

/-- Hexadecimal digit character (lowercase). -/
def hexChar (n : Nat) : Char :=
  Char.ofNat (if n < 10 then 48 + n else 87 + n)

/-- Lowercase hexadecimal rendering of a 32-bit word, 8 characters. -/
def word32Hex (w : Nat) : List Char :=
  [hexChar (w / 268435456 % 16), hexChar (w / 16777216 % 16), hexChar (w / 1048576 % 16),
   hexChar (w / 65536 % 16), hexChar (w / 4096 % 16), hexChar (w / 256 % 16),
   hexChar (w / 16 % 16), hexChar (w % 16)]

/-- hashlib.sha256(msg).hexdigest() as a character list (64 hex characters). -/
def sha256HexChars (msg : List Nat) : List Char :=
  let fin := sha256Blocks H8init (sha256Pad msg)
  word32Hex fin.a ++ word32Hex fin.b ++ word32Hex fin.c ++ word32Hex fin.d ++
  word32Hex fin.e ++ word32Hex fin.f ++ word32Hex fin.g ++ word32Hex fin.h

/-! ## Tokenizer (tiktoken adapter, external dependency)

The tiktoken encoding is external data; the chunker only uses an
encode/decode pair, so it is modelled as a parameter.  `charTok` is a
concrete executable instance (one token per character) used to run the
chunker on concrete inputs. -/

structure Tokenizer where
  encode : String → List Nat
  decode : List Nat → String

/-- BookChunker.count_tokens: length of the encoding of the text. -/
def countTokens (tok : Tokenizer) (s : String) : Int :=
  ((tok.encode s).length : Int)

/-- A concrete tokenizer: one token per character (the character code). -/
def charTok : Tokenizer :=
  ⟨fun s => s.data.map Char.toNat, fun l => String.mk (l.map Char.ofNat)⟩

/-! ## Chunker data model (chunker.py) -/

/-- Python exceptions that the chunker can raise. -/
inductive PyErr where
  | valueError (msg : String)
  | attributeError (msg : String)
  | indexError (msg : String)
deriving Repr, DecidableEq

/-- Chunker configuration (BookChunker.__init__ token parameters). -/
structure ChunkerCfg where
  max_tokens : Int
  min_tokens : Int
  overlap_tokens : Int
deriving Repr, DecidableEq

/-- Metadata dictionary built by BookChunker.create_chunk_metadata.
The chapter / sect / tags keys are present only when truthy; absence is
modelled as `none` / `[]`. -/
structure ChunkMetadata where
  chunk_type : String
  position : Int
  heading_level : Nat
  language : String
  content_type : String
  difficulty_level : String
  topic : String
  chapter : Option String
  sect : Option String
  tags : List String
deriving Repr, DecidableEq

/-- chapter.lower().replace(" ", "_") (ASCII lowercasing model). -/
def toTag (s : String) : String :=
  String.mk (s.data.map (fun c => if c.toLower = ' ' then '_' else c.toLower))

/-- BookChunker.create_chunk_metadata. -/
def create_chunk_metadata (chapter sect : Option String) (level : Nat)
    (position : Int) (chunk_type : String) : ChunkMetadata :=
  let chapterStored := match chapter with
    | some ch => if ch = "" then none else some ch
    | none => none
  let sectStored := match sect with
    | some sc => if sc = "" then none else some sc
    | none => none
  let tags := (match chapterStored with | some ch => [toTag ch] | none => []) ++
    (match sectStored with | some sc => [toTag sc] | none => [])
  ⟨chunk_type, position, level, "ru", "lesson", "intermediate", "linguistics",
   chapterStored, sectStored, tags⟩

/-- A chunk of text with metadata (dataclass Chunk). -/
structure Chunk where
  id : String
  content : String
  metadata : ChunkMetadata
  token_count : Int
deriving Repr, DecidableEq

/-- Chunk construction including Chunk.__post_init__ validation:
empty (stripped) content, empty id, or non-positive token count raise
ValueError, in that order. -/
def mkChunk (id content : String) (metadata : ChunkMetadata)
    (token_count : Int) : Except PyErr Chunk :=
  if pyStrip content = "" then .error (.valueError "Chunk content cannot be empty")
  else if id = "" then .error (.valueError "Chunk ID cannot be empty")
  else if token_count ≤ 0 then .error (.valueError "Token count must be positive")
  else .ok ⟨id, content, metadata, token_count⟩

/-- The sha256 input string of BookChunker.generate_chunk_id:
f"{content}_{position}", plus f"_{chapter}" when chapter is truthy. -/
def chunkHashInput (content : String) (position : Int) : Option String → String
  | some ch =>
      if ch = "" then content ++ "_" ++ pyIntRepr position
      else content ++ "_" ++ pyIntRepr position ++ "_" ++ ch
  | none => content ++ "_" ++ pyIntRepr position

/-- The characters the chapter argument contributes to the hash input
(empty for an absent or empty chapter — proof-support decomposition). -/
def chapterSuffix : Option String → List Char
  | none => []
  | some ch => if ch = "" then [] else "_".data ++ ch.data

/-- BookChunker.generate_chunk_id: sha256 hex digest of the hash input,
truncated to 12 characters, formatted as chunk_<hash>_<position>. -/
def generate_chunk_id (content : String) (position : Int) (chapter : Option String) : String :=
  "chunk_" ++
    String.mk ((sha256HexChars (utf8Bytes (chunkHashInput content position chapter))).take 12) ++
    "_" ++ pyIntRepr position

/-! ## Markdown structure parsing (BookChunker.parse_markdown_structure) -/

/-- The three element dictionaries produced by parse_markdown_structure
(`sect` stands for the source's `section` key, a Lean keyword). -/
inductive SElement where
  | heading (level : Nat) (title : String) (chapter sect : Option String)
      (lineStart lineEnd : Nat)
  | sectionMark (name : String) (chapter sect : Option String)
      (lineStart lineEnd : Nat)
  | paragraph (content : String) (chapter sect : Option String) (level : Nat)
      (lineStart lineEnd : Nat)
deriving Repr, DecidableEq

/-- element.get('content', element.get('title', '')). -/
def SElement.elementContent : SElement → String
  | .heading _ t _ _ _ _ => t
  | .sectionMark _ _ _ _ _ => ""
  | .paragraph c _ _ _ _ _ => c

/-- element.get('chapter'). -/
def SElement.chapterOf : SElement → Option String
  | .heading _ _ ch _ _ _ => ch
  | .sectionMark _ ch _ _ _ => ch
  | .paragraph _ ch _ _ _ _ => ch

/-- element.get('section'). -/
def SElement.sectOf : SElement → Option String
  | .heading _ _ _ sc _ _ => sc
  | .sectionMark _ _ sc _ _ => sc
  | .paragraph _ _ sc _ _ _ => sc

/-- element.get('level', 0): section-marker dictionaries have no level key. -/
def SElement.levelOrZero : SElement → Nat
  | .heading l _ _ _ _ _ => l
  | .sectionMark _ _ _ _ _ => 0
  | .paragraph _ _ _ l _ _ => l

/-- Separator regex: a stripped line matching ^-{4,}$ . -/
def isSeparator (s : String) : Bool :=
  decide (4 ≤ s.data.length) && s.data.all (fun c => c = '-')

/-- Heading regex on a stripped line: ^(#{1,6})\s+(.+)$ ; returns the
heading level and group(2).strip(). -/
def matchHeading (s : String) : Option (Nat × String) :=
  let cs := s.data
  let n := (cs.takeWhile (fun c => c = '#')).length
  if 1 ≤ n ∧ n ≤ 6 then
    let rest := cs.drop n
    let body := rest.dropWhile isPyWs
    if rest.takeWhile isPyWs ≠ [] ∧ body ≠ [] then
      some (n, pyStrip (String.mk body))
    else none
  else none

/-- A word character for the \w class (ASCII model). -/
def isWordChar (c : Char) : Bool := c.isAlphanum || c = '_'

/-- Section-marker regex on a stripped line: ^:::\s*(\w+) (prefix match). -/
def matchSectionMark (s : String) : Option String :=
  let cs := s.data
  if cs.take 3 = [':', ':', ':'] then
    let w := ((cs.drop 3).dropWhile isPyWs).takeWhile isWordChar
    if w ≠ [] then some (String.mk w) else none
  else none

/-- The parsing loop of parse_markdown_structure, structurally recursive
on a fuel argument (fuel larger than the number of lines suffices: every
iteration consumes at least one line). -/
def parseLoopGo : Nat → List String → Nat → Option String → Option String → Nat → List SElement
  | 0, _, _, _, _, _ => []
  | _ + 1, [], _, _, _, _ => []
  | fuel + 1, line :: rest, i, chap, sect, lvl =>
    let s := pyStrip line
    if s = "" || isSeparator s then parseLoopGo fuel rest (i + 1) chap sect lvl
    else
      match matchHeading s with
      | some (level, title) =>
          let chap2 := if level ≤ 2 then some title else chap
          let sect2 := if level ≤ 2 then none else some title
          .heading level title chap2 sect2 i i ::
            parseLoopGo fuel rest (i + 1) chap2 sect2 level
      | none =>
        match matchSectionMark s with
        | some name =>
            .sectionMark name chap (some name) i i ::
              parseLoopGo fuel rest (i + 1) chap (some name) lvl
        | none =>
            let para := (line :: rest).takeWhile (fun l => pyStrip l ≠ "")
            let rest2 := (line :: rest).dropWhile (fun l => pyStrip l ≠ "")
            .paragraph (joinWith "\n" para) chap sect lvl i (i + para.length - 1) ::
              parseLoopGo fuel (rest2.drop 1) (i + para.length + 1) chap sect lvl

/-- BookChunker.parse_markdown_structure. -/
def parse_markdown_structure (content : String) : List SElement :=
  let lines := pySplitNewline content
  parseLoopGo (lines.length + 1) lines 0 none none 0

/-! ## Structure-aware chunking (BookChunker._chunk_by_structure) -/

/-- The mutable loop state of _chunk_by_structure: position counter,
content buffer, current metadata (None before the first heading), and
accumulated token count. -/
structure BState where
  position : Int
  buffer : List String
  metadata : Option ChunkMetadata
  tokens : Int
deriving Repr, DecidableEq

/-- sum(self.count_tokens(c) for c in contents). -/
def sumTokens (tok : Tokenizer) (l : List String) : Int :=
  (l.map (countTokens tok)).sum

/-- The reverse walk of BookChunker._create_overlap_content. -/
def overlapGo (tok : Tokenizer) (ov : Int) : List String → List String → Int → List String
  | [], acc, _ => acc
  | c :: rest, acc, t =>
      let ct := countTokens tok c
      if t + ct > ov then acc else overlapGo tok ov rest (c :: acc) (t + ct)

/-- BookChunker._create_overlap_content. -/
def create_overlap_content (tok : Tokenizer) (ov : Int) (buf : List String) : List String :=
  overlapGo tok ov buf.reverse [] 0

/-- BookChunker._create_chunk_from_buffer; metadata None raises
AttributeError at metadata.get('chapter'). -/
def create_chunk_from_buffer (buf : List String) : Option ChunkMetadata → Int → Int →
    Except PyErr Chunk
  | none, _, _ => .error (.attributeError "NoneType object has no attribute get")
  | some md, token_count, position =>
      mkChunk (generate_chunk_id (joinWith "\n\n" buf) position md.chapter)
        (joinWith "\n\n" buf) md token_count

/-- The heading-emission part of the _chunk_by_structure loop body, after
any buffer flush: emit the heading chunk and reset the buffer state. -/
def headingStep (tok : Tokenizer) (level : Nat) (title : String)
    (chap sct : Option String) (pos : Int) (emitted : List Chunk) :
    List Chunk × Except PyErr BState :=
  let et := countTokens tok title
  let hm := create_chunk_metadata chap sct level pos "heading"
  match mkChunk (generate_chunk_id title pos chap) title hm et with
  | .error e => (emitted, .error e)
  | .ok hc =>
      let pos2 := pos + 1
      let newMd := create_chunk_metadata chap sct level pos2 "content"
      (emitted ++ [hc], .ok ⟨pos2, [], some newMd, 0⟩)

/-- The non-heading part of the _chunk_by_structure loop body: overflow
check, optional flush with overlap re-seeding, then buffer append. -/
def contentStep (cfg : ChunkerCfg) (tok : Tokenizer) (ec : String) (et : Int)
    (chap sct : Option String) (lvl : Nat) (st : BState) :
    List Chunk × Except PyErr BState :=
  if st.tokens + et > cfg.max_tokens then
    if st.buffer.isEmpty then
      let md := create_chunk_metadata chap sct lvl st.position "content"
      ([], .ok ⟨st.position, [ec], some md, et⟩)
    else
      match create_chunk_from_buffer st.buffer st.metadata st.tokens st.position with
      | .error e => ([], .error e)
      | .ok c =>
          let pos2 := st.position + 1
          let newBuf := if cfg.overlap_tokens > 0 then
            create_overlap_content tok cfg.overlap_tokens st.buffer else []
          let newT := if cfg.overlap_tokens > 0 then sumTokens tok newBuf else 0
          let md := create_chunk_metadata chap sct lvl pos2 "content"
          ([c], .ok ⟨pos2, newBuf ++ [ec], some md, newT + et⟩)
  else
    (([] : List Chunk), .ok ⟨st.position, st.buffer ++ [ec], st.metadata, st.tokens + et⟩)

/-- One iteration of the _chunk_by_structure loop: the chunks yielded for
this element, and either the next state or the uncaught exception. -/
def stepElement (cfg : ChunkerCfg) (tok : Tokenizer) (el : SElement) (st : BState) :
    List Chunk × Except PyErr BState :=
  match el with
  | .heading level title chap sct _ _ =>
      if st.buffer.isEmpty then headingStep tok level title chap sct st.position []
      else
        match create_chunk_from_buffer st.buffer st.metadata st.tokens st.position with
        | .error e => ([], .error e)
        | .ok c => headingStep tok level title chap sct (st.position + 1) [c]
  | _ =>
      contentStep cfg tok el.elementContent (countTokens tok el.elementContent)
        el.chapterOf el.sectOf el.levelOrZero st

/-- The _chunk_by_structure generator run over the element list: the
chunks yielded before any uncaught exception, and that exception. -/
def structLoop (cfg : ChunkerCfg) (tok : Tokenizer) :
    List SElement → BState → List Chunk × Option PyErr
  | [], st =>
      if st.buffer.isEmpty then ([], none)
      else
        match create_chunk_from_buffer st.buffer st.metadata st.tokens st.position with
        | .error e => ([], some e)
        | .ok c => ([c], none)
  | el :: rest, st =>
      match stepElement cfg tok el st with
      | (cs, .error e) => (cs, some e)
      | (cs, .ok st2) =>
          let r := structLoop cfg tok rest st2
          (cs ++ r.1, r.2)

/-- BookChunker._chunk_by_structure, run to a list. -/
def chunk_by_structure (cfg : ChunkerCfg) (tok : Tokenizer) (content : String) :
    List Chunk × Option PyErr :=
  structLoop cfg tok (parse_markdown_structure content) ⟨0, [], none, 0⟩

/-! ## Token-only chunking (BookChunker._chunk_by_tokens) -/

/-- The _chunk_by_tokens sliding-window loop, structurally recursive on a
fuel argument (the start index strictly increases each iteration, so fuel
beyond the token count suffices). -/
def tokenLoopGo (cfg : ChunkerCfg) (tok : Tokenizer) (tokens : List Nat) :
    Nat → Nat → Int → List Chunk × Option PyErr
  | 0, _, _ => ([], none)
  | fuel + 1, i, position =>
      if i < tokens.length then
        let endIdx : Int := min ((i : Int) + cfg.max_tokens) (tokens.length : Int)
        let chunkTokens := pySlice tokens i endIdx
        let chunkContent := tok.decode chunkTokens
        let tokenCount : Int := (chunkTokens.length : Int)
        if tokenCount < cfg.min_tokens ∧ endIdx < (tokens.length : Int) then
          tokenLoopGo cfg tok tokens fuel (i + 1) position
        else
          let md := create_chunk_metadata none none 0 position "content"
          match mkChunk (generate_chunk_id chunkContent position none) chunkContent md tokenCount with
          | .error e => ([], some e)
          | .ok c =>
              let i2 := (max ((i : Int) + 1) (endIdx - cfg.overlap_tokens)).toNat
              let r := tokenLoopGo cfg tok tokens fuel i2 (position + 1)
              (c :: r.1, r.2)
      else ([], none)

/-- BookChunker._chunk_by_tokens, run to a list: encode the whole document
once, then slide the window. -/
def chunk_by_tokens (cfg : ChunkerCfg) (tok : Tokenizer) (content : String) :
    List Chunk × Option PyErr :=
  let tokens := tok.encode content
  tokenLoopGo cfg tok tokens (tokens.length + 1) 0 0

/-- The window shape of a token-mode chunk: its content decodes a
contiguous slice tokens[start : start + max_tokens] of the token stream,
its token count is that slice's length, and it can be below min_tokens
only when the window reaches the end of the stream. -/
def isWindowOf (cfg : ChunkerCfg) (tok : Tokenizer) (tokens : List Nat) (c : Chunk) : Prop :=
  ∃ start : Nat,
    c.content = tok.decode (pySlice tokens start
      (min ((start : Int) + cfg.max_tokens) (tokens.length : Int))) ∧
    c.token_count = ((pySlice tokens start
      (min ((start : Int) + cfg.max_tokens) (tokens.length : Int))).length : Int) ∧
    (c.token_count < cfg.min_tokens →
      min ((start : Int) + cfg.max_tokens) (tokens.length : Int) = (tokens.length : Int))

/-- Invariant of the structure-mode loop state: the pending buffer
metadata, when present, was created with chunk type "content". -/
def MdOk (st : BState) : Prop :=
  ∀ m : ChunkMetadata, st.metadata = some m → m.chunk_type = "content"

/-- BookChunker.chunk_content: empty (stripped) input yields nothing;
otherwise dispatch on respect_structure. -/
def chunk_content (cfg : ChunkerCfg) (tok : Tokenizer) (content : String)
    (respect_structure : Bool) : List Chunk × Option PyErr :=
  if pyStrip content = "" then ([], none)
  else if respect_structure then chunk_by_structure cfg tok content
  else chunk_by_tokens cfg tok content

/-! ## Retriever data model (retriever.py)

Scores (Python floats) are modelled as rationals; ChromaDB metadata
dictionaries as association lists; the database client is external, so
its replies (or the exception it raised) are passed as parameters. -/

/-- A stored metadata dictionary. -/
abbrev Md : Type := List (String × String)

/-- A single retrieval result (class RetrievalResult). -/
structure RetrievalResult where
  id : String
  content : String
  metadata : Md
  similarity_score : ℚ
  normalized_score : ℚ
deriving DecidableEq

/-- RetrievalResult.__init__: the stored normalized score is
`normalized_score or similarity_score`, so a falsy argument
(None, or the float 0.0) falls back to the similarity score. -/
def mkRetrievalResult (id content : String) (metadata : Md)
    (similarity_score : ℚ) (normalized_score : Option ℚ) : RetrievalResult :=
  let ns := match normalized_score with
    | none => similarity_score
    | some x => if x = 0 then similarity_score else x
  ⟨id, content, metadata, similarity_score, ns⟩

/-- Python min() over a non-empty list (left fold). -/
def pyMin (x : ℚ) (xs : List ℚ) : ℚ := xs.foldl min x

/-- Python max() over a non-empty list (left fold). -/
def pyMax (x : ℚ) (xs : List ℚ) : ℚ := xs.foldl max x

/-- BookRetriever._normalize_scores: in-place min-max normalization,
modelled as returning the updated list. -/
def normalize_scores : List RetrievalResult → List RetrievalResult
  | [] => []
  | r :: rs =>
      let minScore := pyMin r.similarity_score (rs.map (fun x => x.similarity_score))
      let maxScore := pyMax r.similarity_score (rs.map (fun x => x.similarity_score))
      if maxScore = minScore then
        (r :: rs).map (fun x => ⟨x.id, x.content, x.metadata, x.similarity_score, 1⟩)
      else
        (r :: rs).map (fun x =>
          ⟨x.id, x.content, x.metadata, x.similarity_score,
            (x.similarity_score - minScore) / (maxScore - minScore)⟩)

/-- The reply of db.query (nested lists as returned by ChromaDB for a
single query; a metadata or document entry can be None, replaced by
an empty dictionary / empty string in the loop). -/
structure QueryReply where
  ids : List (List String)
  distances : List (List ℚ)
  metadatas : List (List (Option Md))
  documents : List (List (Option String))

/-- The dictionary comprehension filtering metadata to the requested
keys; include_metadata None or [] (falsy) leaves metadata unfiltered. -/
def filterMetadata (includeMeta : Option (List String)) (metadata : Md) : Md :=
  match includeMeta with
  | none => metadata
  | some [] => metadata
  | some keys => metadata.filter (fun kv => kv.1 ∈ keys)

/-- The conversion loop of BookRetriever.search over the store reply:
similarity = 1 - distance, hard similarity-threshold filter, metadata
filtering; an out-of-range index access raises IndexError. -/
def searchLoop (threshold : ℚ) (includeMeta : Option (List String))
    (d0 : List ℚ) (ms : List (List (Option Md))) (docs : List (List (Option String))) :
    List String → Nat → Except PyErr (List RetrievalResult)
  | [], _ => .ok []
  | docId :: rest, i =>
      match d0.get? i with
      | none => .error (.indexError "list index out of range")
      | some dist =>
          let similarity := 1 - dist
          if similarity < threshold then searchLoop threshold includeMeta d0 ms docs rest (i + 1)
          else
            match (ms.get? 0).bind (fun m0 => m0.get? i) with
            | none => .error (.indexError "list index out of range")
            | some mdOpt =>
                match (docs.get? 0).bind (fun doc0 => doc0.get? i) with
                | none => .error (.indexError "list index out of range")
                | some docOpt =>
                    let metadata := mdOpt.getD []
                    let content := docOpt.getD ""
                    let r := mkRetrievalResult docId content
                      (filterMetadata includeMeta metadata) similarity none
                    match searchLoop threshold includeMeta d0 ms docs rest (i + 1) with
                    | .error e => .error e
                    | .ok rs => .ok (r :: rs)

/-- BookRetriever.search given the vector-store reply (db.query being
external): empty query raises ValueError; a store exception propagates;
otherwise convert, threshold-filter, and normalize scores. -/
def search (query : String) (threshold : ℚ) (includeMeta : Option (List String))
    (reply : Except PyErr QueryReply) : Except PyErr (List RetrievalResult) :=
  if pyStrip query = "" then .error (.valueError "Query cannot be empty")
  else
    match reply with
    | .error e => .error e
    | .ok res =>
        match res.ids with
        | [] => .ok (normalize_scores [])
        | ids0 :: _ =>
            if ids0.isEmpty then .ok (normalize_scores [])
            else
              match res.distances.get? 0 with
              | none => .error (.indexError "list index out of range")
              | some d0 =>
                  match searchLoop threshold includeMeta d0 res.metadatas res.documents ids0 0 with
                  | .error e => .error e
                  | .ok rs => .ok (normalize_scores rs)

/-- The per-query result recorded by bulk_search: the search result, or
the empty list when the underlying search raised. -/
def bulkResultOf (searchFn : String → Except PyErr (List RetrievalResult))
    (q : String) : List RetrievalResult :=
  match searchFn q with
  | .ok rs => rs
  | .error _ => []

/-- Python dict assignment d[k] = v: overwrite in place or append. -/
def dictInsert {α : Type} : List (String × α) → String → α → List (String × α)
  | [], k, v => [(k, v)]
  | (k2, v2) :: rest, k, v =>
      if k2 = k then (k, v) :: rest else (k2, v2) :: dictInsert rest k v

/-- BookRetriever.bulk_search, with the underlying per-query search as a
parameter: runs every query, catching per-query failures as empty result
lists; an empty query list short-circuits to an empty dictionary. -/
def bulk_search (queries : List String)
    (searchFn : String → Except PyErr (List RetrievalResult)) :
    List (String × List RetrievalResult) :=
  if queries.isEmpty then []
  else queries.foldl (fun d q => dictInsert d q (bulkResultOf searchFn q)) []

/-- The reply of db.get (flat lists). -/
structure GetReply where
  ids : List String
  metadatas : List (Option Md)
  documents : List (Option String)

/-- BookRetriever.get_by_id given the db.get reply: every exception
(including one raised by the store) is caught and yields None; a hit
returns a result with the perfect-match sentinel scores. -/
def get_by_id (doc_id : String) (reply : Except PyErr GetReply) :
    Option RetrievalResult :=
  match reply with
  | .error _ => none
  | .ok res =>
      match res.ids with
      | [] => none
      | firstId :: _ =>
          if firstId = "" then none
          else
            match res.metadatas.get? 0 with
            | none => none
            | some mdOpt =>
                match res.documents.get? 0 with
                | none => none
                | some docOpt =>
                    some (mkRetrievalResult doc_id (docOpt.getD "") (mdOpt.getD [])
                      1 (some 1))

/-! ## Helper lemmas -/

/-- Inversion for a successful Chunk construction. -/
theorem mkChunk_ok {id content : String} {md : ChunkMetadata} {tc : Int} {c : Chunk}
    (h : mkChunk id content md tc = Except.ok c) : c = ⟨id, content, md, tc⟩ := by
  unfold mkChunk at h
  split_ifs at h
  cases h
  rfl

/-- Looking up the just-inserted key finds the just-inserted value. -/
theorem dictInsert_lookup_self {α : Type} (d : List (String × α)) (k : String) (v : α) :
    (dictInsert d k v).lookup k = some v := by
  induction d with
  | nil => simp [dictInsert, List.lookup]
  | cons p rest ih =>
      obtain ⟨k2, v2⟩ := p
      by_cases h : k2 = k
      · simp [dictInsert, h, List.lookup]
      · have hbeq : (k == k2) = false := beq_eq_false_iff_ne.mpr (Ne.symm h)
        simp [dictInsert, h, List.lookup, hbeq, ih]

/-- Inserting one key leaves lookups of other keys unchanged. -/
theorem dictInsert_lookup_ne {α : Type} (d : List (String × α)) (k k2 : String) (v : α)
    (h : k2 ≠ k) : (dictInsert d k v).lookup k2 = d.lookup k2 := by
  have hbeq : (k2 == k) = false := beq_eq_false_iff_ne.mpr h
  induction d with
  | nil => simp [dictInsert, List.lookup, hbeq]
  | cons p rest ih =>
      obtain ⟨k3, v3⟩ := p
      by_cases h3 : k3 = k
      · subst h3
        simp [dictInsert, List.lookup, hbeq]
      · simp only [dictInsert, if_neg h3]
        by_cases h2 : k2 = k3
        · simp [List.lookup, h2]
        · have hbeq2 : (k2 == k3) = false := beq_eq_false_iff_ne.mpr h2
          simp [List.lookup, hbeq2, ih]

/-- Every entry of an insertion result is the new pair or an old entry. -/
theorem dictInsert_mem {α : Type} (d : List (String × α)) (k : String) (v : α)
    (p : String × α) (hp : p ∈ dictInsert d k v) : p = (k, v) ∨ p ∈ d := by
  induction d with
  | nil => simpa [dictInsert] using hp
  | cons q rest ih =>
      obtain ⟨k2, v2⟩ := q
      by_cases h : k2 = k
      · rw [dictInsert, if_pos h] at hp
        rcases List.mem_cons.mp hp with e | hm
        · exact Or.inl e
        · exact Or.inr (List.mem_cons_of_mem _ hm)
      · rw [dictInsert, if_neg h] at hp
        rcases List.mem_cons.mp hp with e | hm
        · exact Or.inr (e ▸ List.mem_cons_self _ _)
        · rcases ih hm with e | hm2
          · exact Or.inl e
          · exact Or.inr (List.mem_cons_of_mem _ hm2)

/-- The bulk_search fold leaves keys outside the query list untouched. -/
theorem bulkFold_lookup_notmem (searchFn : String → Except PyErr (List RetrievalResult))
    (qs : List String) (d : List (String × List RetrievalResult)) (q : String)
    (h : q ∉ qs) :
    (qs.foldl (fun d q => dictInsert d q (bulkResultOf searchFn q)) d).lookup q =
      d.lookup q := by
  induction qs generalizing d with
  | nil => rfl
  | cons q1 rest ih =>
      have hne : q ≠ q1 := fun e => h (e ▸ List.mem_cons_self q1 rest)
      rw [List.foldl_cons, ih _ (fun hm => h (List.mem_cons_of_mem _ hm)),
        dictInsert_lookup_ne _ _ _ _ hne]

/-- The bulk_search fold records, for every query of the list, exactly the
result of an independent search for it. -/
theorem bulkFold_lookup_mem (searchFn : String → Except PyErr (List RetrievalResult))
    (qs : List String) (d : List (String × List RetrievalResult)) (q : String)
    (h : q ∈ qs) :
    (qs.foldl (fun d q => dictInsert d q (bulkResultOf searchFn q)) d).lookup q =
      some (bulkResultOf searchFn q) := by
  induction qs generalizing d with
  | nil => cases h
  | cons q1 rest ih =>
      by_cases hq : q ∈ rest
      · rw [List.foldl_cons]
        exact ih _ hq
      · have he : q = q1 := by
          rcases List.mem_cons.mp h with e | hm
          · exact e
          · exact absurd hm hq
        subst he
        rw [List.foldl_cons, bulkFold_lookup_notmem searchFn rest _ q hq,
          dictInsert_lookup_self]

/-- Every entry produced by the bulk_search fold belongs to a query of the
list (or was already present) and carries its independent search result. -/
theorem bulkFold_mem (searchFn : String → Except PyErr (List RetrievalResult))
    (qs : List String) (d : List (String × List RetrievalResult))
    (p : String × List RetrievalResult)
    (hp : p ∈ qs.foldl (fun d q => dictInsert d q (bulkResultOf searchFn q)) d) :
    (p.1 ∈ qs ∧ p.2 = bulkResultOf searchFn p.1) ∨ p ∈ d := by
  induction qs generalizing d with
  | nil => exact Or.inr hp
  | cons q1 rest ih =>
      rw [List.foldl_cons] at hp
      rcases ih _ hp with ⟨h1, h2⟩ | hmem
      · exact Or.inl ⟨List.mem_cons_of_mem _ h1, h2⟩
      · rcases dictInsert_mem _ _ _ _ hmem with e | hd
        · subst e
          exact Or.inl ⟨List.mem_cons_self _ _, rfl⟩
        · exact Or.inr hd

/-- pyMin is a lower bound of its initial value and all list elements. -/
theorem pyMin_le (xs : List ℚ) : ∀ x : ℚ, pyMin x xs ≤ x ∧ ∀ y ∈ xs, pyMin x xs ≤ y := by
  induction xs with
  | nil => exact fun x => ⟨le_refl x, by simp⟩
  | cons z zs ih =>
      intro x
      have h := ih (min x z)
      have hstep : pyMin x (z :: zs) = pyMin (min x z) zs := rfl
      constructor
      · rw [hstep]
        exact le_trans h.1 (min_le_left x z)
      · intro y hy
        rw [hstep]
        rcases List.mem_cons.mp hy with e | hm
        · rw [e]
          exact le_trans h.1 (min_le_right x z)
        · exact h.2 y hm

/-- pyMin attains its initial value or a list element. -/
theorem pyMin_mem (xs : List ℚ) : ∀ x : ℚ, pyMin x xs = x ∨ pyMin x xs ∈ xs := by
  induction xs with
  | nil => exact fun x => Or.inl rfl
  | cons z zs ih =>
      intro x
      have hstep : pyMin x (z :: zs) = pyMin (min x z) zs := rfl
      rcases ih (min x z) with h | h
      · rcases min_choice x z with e | e
        · exact Or.inl (by rw [hstep, h, e])
        · exact Or.inr (by rw [hstep, h, e]; exact List.mem_cons_self z zs)
      · exact Or.inr (List.mem_cons_of_mem _ (hstep ▸ h))

/-- pyMax is an upper bound of its initial value and all list elements. -/
theorem pyMax_le (xs : List ℚ) : ∀ x : ℚ, x ≤ pyMax x xs ∧ ∀ y ∈ xs, y ≤ pyMax x xs := by
  induction xs with
  | nil => exact fun x => ⟨le_refl x, by simp⟩
  | cons z zs ih =>
      intro x
      have h := ih (max x z)
      have hstep : pyMax x (z :: zs) = pyMax (max x z) zs := rfl
      constructor
      · rw [hstep]
        exact le_trans (le_max_left x z) h.1
      · intro y hy
        rw [hstep]
        rcases List.mem_cons.mp hy with e | hm
        · rw [e]
          exact le_trans (le_max_right x z) h.1
        · exact h.2 y hm

/-- pyMax attains its initial value or a list element. -/
theorem pyMax_mem (xs : List ℚ) : ∀ x : ℚ, pyMax x xs = x ∨ pyMax x xs ∈ xs := by
  induction xs with
  | nil => exact fun x => Or.inl rfl
  | cons z zs ih =>
      intro x
      have hstep : pyMax x (z :: zs) = pyMax (max x z) zs := rfl
      rcases ih (max x z) with h | h
      · rcases max_choice x z with e | e
        · exact Or.inl (by rw [hstep, h, e])
        · exact Or.inr (by rw [hstep, h, e]; exact List.mem_cons_self z zs)
      · exact Or.inr (List.mem_cons_of_mem _ (hstep ▸ h))

/-- Every result produced by the search conversion loop passed the hard
similarity threshold and records 1 minus the distance the store reported
at its index. -/
theorem searchLoop_ok (threshold : ℚ) (incl : Option (List String)) (d0 : List ℚ)
    (ms : List (List (Option Md))) (docs : List (List (Option String))) :
    ∀ (l : List String) (i : Nat) (rs : List RetrievalResult),
      searchLoop threshold incl d0 ms docs l i = Except.ok rs →
      ∀ r ∈ rs, threshold ≤ r.similarity_score ∧
        ∃ j, l.get? j = some r.id ∧ d0.get? (i + j) = some (1 - r.similarity_score) := by
  intro l
  induction l with
  | nil =>
      intro i rs h r hr
      simp only [searchLoop, Except.ok.injEq] at h
      subst h
      cases hr
  | cons docId rest ih =>
      intro i rs h r hr
      simp only [searchLoop] at h
      split at h
      · simp at h
      · rename_i dist hd
        split_ifs at h with hlt
        · obtain ⟨hth, j, hj1, hj2⟩ := ih (i + 1) rs h r hr
          refine ⟨hth, j + 1, ?_, ?_⟩
          · rw [List.get?_cons_succ]
            exact hj1
          · rwa [show i + (j + 1) = i + 1 + j by omega]
        · split at h
          · simp at h
          · split at h
            · simp at h
            · split at h
              · simp at h
              · simp only [Except.ok.injEq] at h
                subst h
                rcases List.mem_cons.mp hr with e | hm
                · subst e
                  refine ⟨le_of_not_lt hlt, 0, rfl, ?_⟩
                  show d0.get? (i + 0) = some (1 - (1 - dist))
                  rw [Nat.add_zero, show (1 : ℚ) - (1 - dist) = dist by ring]
                  exact hd
                · rename_i rs2 hsl
                  obtain ⟨hth, j, hj1, hj2⟩ := ih (i + 1) rs2 hsl r hm
                  refine ⟨hth, j + 1, ?_, ?_⟩
                  · rw [List.get?_cons_succ]
                    exact hj1
                  · rwa [show i + (j + 1) = i + 1 + j by omega]

/-- Normalization only rewrites normalized scores: every output result
corresponds to an input result with identical other fields. -/
theorem normalize_scores_mem (rs : List RetrievalResult) (r : RetrievalResult)
    (hr : r ∈ normalize_scores rs) :
    ∃ r2 ∈ rs, r.id = r2.id ∧ r.content = r2.content ∧ r.metadata = r2.metadata ∧
      r.similarity_score = r2.similarity_score := by
  cases rs with
  | nil => cases hr
  | cons r0 rest =>
      simp only [normalize_scores] at hr
      split_ifs at hr <;>
        · obtain ⟨r2, h2, he⟩ := List.mem_map.mp hr
          exact ⟨r2, h2, by rw [← he], by rw [← he], by rw [← he], by rw [← he]⟩

/-- The fuel-based digit expansion evaluates back to its input when the
fuel is sufficient. -/
theorem natDigitsGo_eval : ∀ fuel n : Nat, n ≤ fuel → unDigits (natDigitsGo fuel n) = n := by
  intro fuel
  induction fuel with
  | zero =>
      intro n h
      have hn : n = 0 := by omega
      subst hn
      rfl
  | succ fuel ih =>
      intro n h
      by_cases h10 : n < 10
      · simp [natDigitsGo, h10, unDigits]
      · have hrec : natDigitsGo (fuel + 1) n = natDigitsGo fuel (n / 10) ++ [n % 10] := by
          simp [natDigitsGo, h10]
        have happ : unDigits (natDigitsGo fuel (n / 10) ++ [n % 10]) =
            unDigits (natDigitsGo fuel (n / 10)) * 10 + n % 10 := by
          unfold unDigits
          rw [List.foldl_append]
          rfl
        rw [hrec, happ, ih (n / 10) (by omega)]
        omega

/-- Decimal digit lists determine the number. -/
theorem natDigits_inj (m n : Nat) (h : natDigits m = natDigits n) : m = n := by
  have hm := natDigitsGo_eval m m le_rfl
  have hn := natDigitsGo_eval n n le_rfl
  unfold natDigits at h
  rw [h] at hm
  rw [hm] at hn
  exact hn

/-- Every produced digit is below 10. -/
theorem natDigitsGo_lt : ∀ fuel n : Nat, ∀ d ∈ natDigitsGo fuel n, d < 10 := by
  intro fuel
  induction fuel with
  | zero =>
      intro n d hd
      simp only [natDigitsGo, List.mem_singleton] at hd
      omega
  | succ fuel ih =>
      intro n d hd
      by_cases h10 : n < 10
      · simp only [natDigitsGo, if_pos h10, List.mem_singleton] at hd
        omega
      · simp only [natDigitsGo, if_neg h10, List.mem_append, List.mem_singleton] at hd
        rcases hd with hd | hd
        · exact ih (n / 10) d hd
        · omega

/-- The digit list is never empty. -/
theorem natDigitsGo_ne_nil (fuel n : Nat) : natDigitsGo fuel n ≠ [] := by
  cases fuel with
  | zero => simp [natDigitsGo]
  | succ fuel =>
      by_cases h10 : n < 10
      · simp [natDigitsGo, h10]
      · simp [natDigitsGo, h10]

/-- Decimal digit characters decode to their code points. -/
theorem digitChar_toNat (d : Nat) (h : d < 10) : (Char.ofNat (48 + d)).toNat = 48 + d := by
  interval_cases d <;> decide

/-- Mapping digits to characters is injective on digit lists. -/
theorem map_digitChar_inj : ∀ l1 l2 : List Nat, (∀ d ∈ l1, d < 10) → (∀ d ∈ l2, d < 10) →
    l1.map (fun d => Char.ofNat (48 + d)) = l2.map (fun d => Char.ofNat (48 + d)) →
    l1 = l2 := by
  intro l1
  induction l1 with
  | nil =>
      intro l2 _ _ h
      cases l2 with
      | nil => rfl
      | cons d2 t2 => simp at h
  | cons d1 t1 ih =>
      intro l2 hb1 hb2 h
      cases l2 with
      | nil => simp at h
      | cons d2 t2 =>
          simp only [List.map_cons, List.cons.injEq] at h
          have hd : d1 = d2 := by
            have h1 := congrArg Char.toNat h.1
            rw [digitChar_toNat d1 (hb1 d1 (List.mem_cons_self d1 t1)),
              digitChar_toNat d2 (hb2 d2 (List.mem_cons_self d2 t2))] at h1
            omega
          rw [hd, ih t2 (fun d hd2 => hb1 d (List.mem_cons_of_mem _ hd2))
            (fun d hd2 => hb2 d (List.mem_cons_of_mem _ hd2)) h.2]

/-- The decimal character rendering of naturals is injective. -/
theorem natDecimalChars_inj (m n : Nat) (h : natDecimalChars m = natDecimalChars n) :
    m = n := by
  apply natDigits_inj
  exact map_digitChar_inj (natDigits m) (natDigits n)
    (natDigitsGo_lt m m) (natDigitsGo_lt n n) h

/-- The decimal character rendering never starts with a minus sign. -/
theorem natDecimalChars_head_ne (n : Nat) (a : List Char)
    (h : natDecimalChars n = '-' :: a) : False := by
  unfold natDecimalChars at h
  cases hdig : natDigits n with
  | nil => exact natDigitsGo_ne_nil n n hdig
  | cons d ds =>
      rw [hdig] at h
      simp only [List.map_cons, List.cons.injEq] at h
      have hdmem : d ∈ natDigitsGo n n := by
        unfold natDigits at hdig
        rw [hdig]
        exact List.mem_cons_self d ds
      have h1 := congrArg Char.toNat h.1
      rw [digitChar_toNat d (natDigitsGo_lt n n d hdmem)] at h1
      have hlt := natDigitsGo_lt n n d hdmem
      simp at h1
      omega

/-- Python's integer rendering is injective. -/
theorem pyIntRepr_inj (m n : Int) (h : pyIntRepr m = pyIntRepr n) : m = n := by
  unfold pyIntRepr at h
  have hd := congrArg String.data h
  split_ifs at hd with hm hn hn
  · simp only [List.cons.injEq, true_and] at hd
    have := natDecimalChars_inj _ _ hd
    omega
  · exact absurd (natDecimalChars_head_ne _ _ hd.symm) not_false
  · exact absurd (natDecimalChars_head_ne _ _ hd) not_false
  · have := natDecimalChars_inj _ _ hd
    omega

/-- The sha256 hex digest always has 64 characters. -/
theorem sha256HexChars_length (msg : List Nat) : (sha256HexChars msg).length = 64 := by
  simp [sha256HexChars, word32Hex]

/-- Decomposition of a generated chunk id into its character pieces. -/
theorem generate_chunk_id_data (c : String) (p : Int) (ch : Option String) :
    (generate_chunk_id c p ch).data =
      "chunk_".data ++ ((sha256HexChars (utf8Bytes (chunkHashInput c p ch))).take 12 ++
        ("_".data ++ (pyIntRepr p).data)) := by
  unfold generate_chunk_id
  simp [String.data_append, List.append_assoc]

/-- Decomposition of a chunk hash input into its character pieces. -/
theorem chunkHashInput_data (c : String) (p : Int) (ch : Option String) :
    (chunkHashInput c p ch).data =
      c.data ++ ("_".data ++ ((pyIntRepr p).data ++ chapterSuffix ch)) := by
  cases ch with
  | none => simp [chunkHashInput, chapterSuffix, String.data_append, List.append_assoc]
  | some s =>
      simp only [chunkHashInput, chapterSuffix]
      split_ifs with hs <;> simp [String.data_append, List.append_assoc]

/-- Equal generated chunk ids force equal positions (the position is
appended in clear after the fixed-width hash). -/
theorem generate_chunk_id_position (c c' : String) (p p' : Int) (ch ch' : Option String)
    (h : generate_chunk_id c p ch = generate_chunk_id c' p' ch') : p = p' := by
  have hd := congrArg String.data h
  rw [generate_chunk_id_data, generate_chunk_id_data] at hd
  have h1 := List.append_cancel_left hd
  have hlen : ((sha256HexChars (utf8Bytes (chunkHashInput c p ch))).take 12).length =
      ((sha256HexChars (utf8Bytes (chunkHashInput c' p' ch'))).take 12).length := by
    rw [List.length_take, List.length_take, sha256HexChars_length, sha256HexChars_length]
  obtain ⟨-, h2⟩ := List.append_inj h1 hlen
  have h3 := List.append_cancel_left h2
  exact pyIntRepr_inj p p' (String.ext h3)

/-- The token count of a token-mode window never exceeds a non-negative
max_tokens. -/
theorem pySlice_min_length (tokens : List Nat) (start : Nat) (cfg : ChunkerCfg)
    (hmax : 0 ≤ cfg.max_tokens) :
    ((pySlice tokens start
      (min ((start : Int) + cfg.max_tokens) (tokens.length : Int))).length : Int) ≤
      cfg.max_tokens := by
  set e := min ((start : Int) + cfg.max_tokens) (tokens.length : Int) with he
  have h0 : 0 ≤ e := le_min (by omega) (Int.natCast_nonneg _)
  have h1 : e ≤ (start : Int) + cfg.max_tokens := min_le_left _ _
  simp only [pySlice, if_neg (not_lt.mpr h0), List.length_drop, List.length_take]
  have h2 : e.toNat ≤ start + cfg.max_tokens.toNat := by omega
  have h3 : min e.toNat tokens.length ≤ e.toNat := min_le_left _ _
  omega

/-- Every chunk emitted by the token-mode loop is a window of the token
stream in the sense of isWindowOf. -/
theorem tokenLoopGo_emitted (cfg : ChunkerCfg) (tok : Tokenizer) (tokens : List Nat) :
    ∀ (fuel i : Nat) (pos : Int), ∀ c ∈ (tokenLoopGo cfg tok tokens fuel i pos).1,
      isWindowOf cfg tok tokens c := by
  intro fuel
  induction fuel with
  | zero =>
      intro i pos c hc
      simp [tokenLoopGo] at hc
  | succ fuel ih =>
      intro i pos c hc
      simp only [tokenLoopGo] at hc
      split_ifs at hc with hlen hskip
      · exact ih (i + 1) pos c hc
      · split at hc
        · simp at hc
        · rename_i c1 hmk
          rcases List.mem_cons.mp hc with e | hm
          · subst e
            have hc1 := mkChunk_ok hmk
            refine ⟨i, ?_, ?_, ?_⟩
            · rw [hc1]
            · rw [hc1]
            · intro hlt
              rw [hc1] at hlt
              have hnot : ¬ (((pySlice tokens i (min ((i : Int) + cfg.max_tokens)
                  (tokens.length : Int))).length : Int) < cfg.min_tokens ∧
                  min ((i : Int) + cfg.max_tokens) (tokens.length : Int) <
                    (tokens.length : Int)) := hskip
              have hle : min ((i : Int) + cfg.max_tokens) (tokens.length : Int) ≤
                  (tokens.length : Int) := min_le_right _ _
              rcases not_and_or.mp hnot with h | h
              · exact absurd hlt h
              · exact le_antisymm hle (not_lt.mp h)
          · exact ih _ (pos + 1) c hm
      · simp at hc

/-- Inversion for a successful buffer flush: the buffer metadata was
present and is stored in the chunk. -/
theorem create_chunk_from_buffer_ok (buf : List String) (md : Option ChunkMetadata)
    (tc pos : Int) (c : Chunk) (h : create_chunk_from_buffer buf md tc pos = Except.ok c) :
    ∃ m, md = some m ∧ c.metadata = m := by
  cases md with
  | none => simp [create_chunk_from_buffer] at h
  | some m =>
      refine ⟨m, rfl, ?_⟩
      rw [mkChunk_ok h]

/-- A flushed buffer chunk never carries heading metadata when the state
invariant holds. -/
theorem flush_chunk_not_heading (buf : List String) (md : Option ChunkMetadata)
    (tc pos : Int) (c : Chunk) (hst : ∀ m, md = some m → m.chunk_type = "content")
    (h : create_chunk_from_buffer buf md tc pos = Except.ok c) :
    c.metadata.chunk_type = "heading" → False := by
  intro hhead
  obtain ⟨m, hmd, hcm⟩ := create_chunk_from_buffer_ok buf md tc pos c h
  rw [hcm, hst m hmd] at hhead
  exact absurd hhead (by decide)

/-- Heading emission: emitted heading chunks have token_count equal to
the tokenizer count of their content, and the reset state satisfies the
metadata invariant. -/
theorem headingStep_props (tok : Tokenizer) (level : Nat) (title : String)
    (chap sct : Option String) (pos : Int) (emitted : List Chunk)
    (hemit : ∀ c ∈ emitted, c.metadata.chunk_type = "heading" →
      c.token_count = countTokens tok c.content) :
    (∀ c ∈ (headingStep tok level title chap sct pos emitted).1,
      c.metadata.chunk_type = "heading" → c.token_count = countTokens tok c.content) ∧
    (∀ st2, (headingStep tok level title chap sct pos emitted).2 = Except.ok st2 →
      MdOk st2) := by
  simp only [headingStep]
  split
  · rename_i e hmk
    refine ⟨hemit, ?_⟩
    intro st2 h
    cases h
  · rename_i hc hmk
    constructor
    · intro c hcm hhead
      rcases List.mem_append.mp hcm with h | h
      · exact hemit c h hhead
      · have he : c = hc := List.mem_singleton.mp h
        subst he
        have hinv := mkChunk_ok hmk
        rw [hinv]
    · intro st2 h
      simp only [Except.ok.injEq] at h
      subst h
      intro m hm
      simp only [Option.some.injEq] at hm
      rw [← hm]
      rfl

/-- The content step: no emitted chunk carries heading metadata, and the
invariant is preserved. -/
theorem contentStep_props (cfg : ChunkerCfg) (tok : Tokenizer) (ec : String) (et : Int)
    (chap sct : Option String) (lvl : Nat) (st : BState) (hst : MdOk st) :
    (∀ c ∈ (contentStep cfg tok ec et chap sct lvl st).1,
      c.metadata.chunk_type = "heading" → c.token_count = countTokens tok c.content) ∧
    (∀ st2, (contentStep cfg tok ec et chap sct lvl st).2 = Except.ok st2 → MdOk st2) := by
  simp only [contentStep]
  split_ifs with hover hbuf hov
  · refine ⟨by simp, ?_⟩
    intro st2 h
    simp only [Except.ok.injEq] at h
    subst h
    intro m hm
    simp only [Option.some.injEq] at hm
    rw [← hm]
    rfl
  · split
    · rename_i e hflush
      refine ⟨by simp, ?_⟩
      intro st2 h
      cases h
    · rename_i c1 hflush
      constructor
      · intro c hcm hhead
        have he : c = c1 := List.mem_singleton.mp hcm
        subst he
        exact absurd hhead (fun hh => flush_chunk_not_heading _ _ _ _ c hst hflush hh)
      · intro st2 h
        simp only [Except.ok.injEq] at h
        subst h
        intro m hm
        simp only [Option.some.injEq] at hm
        rw [← hm]
        rfl
  · split
    · rename_i e hflush
      refine ⟨by simp, ?_⟩
      intro st2 h
      cases h
    · rename_i c1 hflush
      constructor
      · intro c hcm hhead
        have he : c = c1 := List.mem_singleton.mp hcm
        subst he
        exact absurd hhead (fun hh => flush_chunk_not_heading _ _ _ _ c hst hflush hh)
      · intro st2 h
        simp only [Except.ok.injEq] at h
        subst h
        intro m hm
        simp only [Option.some.injEq] at hm
        rw [← hm]
        rfl
  · refine ⟨by simp, ?_⟩
    intro st2 h
    simp only [Except.ok.injEq] at h
    subst h
    exact fun m hm => hst m hm

/-- One structure-mode loop step: emitted heading chunks carry the exact
tokenizer count of their content, and the invariant is preserved. -/
theorem stepElement_props (cfg : ChunkerCfg) (tok : Tokenizer) (el : SElement)
    (st : BState) (hst : MdOk st) :
    (∀ c ∈ (stepElement cfg tok el st).1,
      c.metadata.chunk_type = "heading" → c.token_count = countTokens tok c.content) ∧
    (∀ st2, (stepElement cfg tok el st).2 = Except.ok st2 → MdOk st2) := by
  cases el with
  | heading level title chap sct a b =>
      simp only [stepElement]
      split_ifs with hbuf
      · exact headingStep_props tok level title chap sct st.position [] (by simp)
      · split
        · rename_i e hflush
          refine ⟨by simp, ?_⟩
          intro st2 h
          cases h
        · rename_i c1 hflush
          refine headingStep_props tok level title chap sct (st.position + 1) [c1] ?_
          intro c hcm hhead
          have he : c = c1 := List.mem_singleton.mp hcm
          subst he
          exact absurd hhead (fun hh => flush_chunk_not_heading _ _ _ _ c hst hflush hh)
  | sectionMark name chap sct a b =>
      exact contentStep_props cfg tok _ _ _ _ _ st hst
  | paragraph content chap sct level a b =>
      exact contentStep_props cfg tok _ _ _ _ _ st hst

/-- Under the state invariant, every heading-typed chunk the structure
loop emits has token_count equal to the tokenizer count of its content. -/
theorem structLoop_heading (cfg : ChunkerCfg) (tok : Tokenizer) :
    ∀ (els : List SElement) (st : BState), MdOk st →
      ∀ c ∈ (structLoop cfg tok els st).1, c.metadata.chunk_type = "heading" →
        c.token_count = countTokens tok c.content := by
  intro els
  induction els with
  | nil =>
      intro st hst c hc hhead
      simp only [structLoop] at hc
      split_ifs at hc with hbuf
      · simp at hc
      · split at hc
        · simp at hc
        · rename_i c1 hflush
          have he : c = c1 := List.mem_singleton.mp hc
          subst he
          exact absurd hhead (fun hh => flush_chunk_not_heading _ _ _ _ c hst hflush hh)
  | cons el rest ih =>
      intro st hst c hc hhead
      simp only [structLoop] at hc
      split at hc
      · rename_i cs e hstep
        have hc2 : c ∈ (stepElement cfg tok el st).1 := by
          rw [hstep]
          exact hc
        exact (stepElement_props cfg tok el st hst).1 c hc2 hhead
      · rename_i cs st2 hstep
        rcases List.mem_append.mp hc with h | h
        · have hc2 : c ∈ (stepElement cfg tok el st).1 := by
            rw [hstep]
            exact h
          exact (stepElement_props cfg tok el st hst).1 c hc2 hhead
        · have hst2 : MdOk st2 := (stepElement_props cfg tok el st hst).2 st2 (by rw [hstep])
          exact ih st2 hst2 c h hhead

/-! ## Claim theorems -/

/-- C10: RetrievalResult's constructor evaluates `normalized_score or
similarity_score`, so both None and an explicit 0.0 normalized score are
replaced by the similarity score; a non-zero explicit value is kept; and a
result can only leave the constructor with normalized score 0 when its
similarity score is itself 0. -/
theorem retrieval_result_falsy_spec :
    ∀ (id content : String) (m : Md) (sim : ℚ),
      (mkRetrievalResult id content m sim (some 0)).normalized_score = sim ∧
      (mkRetrievalResult id content m sim none).normalized_score = sim ∧
      (∀ x : ℚ, x ≠ 0 → (mkRetrievalResult id content m sim (some x)).normalized_score = x) ∧
      (∀ ns : Option ℚ, (mkRetrievalResult id content m sim ns).normalized_score = 0 → sim = 0) := by
  intro id content m sim
  refine ⟨?_, rfl, ?_, ?_⟩
  · show (if (0 : ℚ) = 0 then sim else 0) = sim
    rw [if_pos rfl]
  · intro x hx
    show (if x = 0 then sim else x) = x
    rw [if_neg hx]
  · intro ns h
    match ns with
    | none => exact h
    | some x =>
        by_cases hx : x = 0
        · subst hx
          rw [show (mkRetrievalResult id content m sim (some 0)).normalized_score =
            sim from by rw [show (mkRetrievalResult id content m sim
              (some 0)).normalized_score = if (0 : ℚ) = 0 then sim else 0 from rfl,
              if_pos rfl]] at h
          exact h
        · rw [show (mkRetrievalResult id content m sim (some x)).normalized_score =
            if x = 0 then sim else x from rfl, if_neg hx] at h
          exact absurd h hx

/-- Witness for C10 at concrete inputs. -/
theorem retrieval_result_falsy_witness :
    (mkRetrievalResult "a" "b" [] (3/4) (some (1/2))).normalized_score = 1/2 :=
  (retrieval_result_falsy_spec "a" "b" [] (3/4)).2.2.1 (1/2) (by norm_num)

/-- C7 (corrected): Chunk construction succeeds exactly when the content
contains a non-whitespace character (not merely when it is non-empty), the
id is non-empty, and the token count is positive; any violation fails
immediately with a ValueError. -/
theorem chunk_validation_amended :
    ∀ (id content : String) (m : ChunkMetadata) (tc : Int),
      ((∃ c, mkChunk id content m tc = Except.ok c) ↔
        (pyStrip content ≠ "" ∧ id ≠ "" ∧ 0 < tc)) ∧
      ((pyStrip content = "" ∨ id = "" ∨ tc ≤ 0) →
        ∃ msg, mkChunk id content m tc = Except.error (PyErr.valueError msg)) := by
  intro id content m tc
  unfold mkChunk
  split_ifs with h1 h2 h3
  · refine ⟨⟨fun h => ?_, fun h => absurd h1 h.1⟩, fun _ => ⟨_, rfl⟩⟩
    obtain ⟨c, hc⟩ := h
    simp at hc
  · refine ⟨⟨fun h => ?_, fun h => absurd h2 h.2.1⟩, fun _ => ⟨_, rfl⟩⟩
    obtain ⟨c, hc⟩ := h
    simp at hc
  · refine ⟨⟨fun h => ?_, fun _ => by omega⟩, fun _ => ⟨_, rfl⟩⟩
    obtain ⟨c, hc⟩ := h
    simp at hc
  · refine ⟨⟨fun _ => ⟨h1, h2, by omega⟩, fun _ => ⟨_, rfl⟩⟩, fun h => ?_⟩
    rcases h with h | h | h
    · exact absurd h h1
    · exact absurd h h2
    · omega

/-- C7 counterexample: whitespace-only (hence non-empty) content with a
non-empty id and positive token count still fails construction, against
the claim's stated success condition. -/
theorem chunk_validation_counterexample :
    (" " : String) ≠ "" ∧ ("x" : String) ≠ "" ∧ (0 : Int) < 1 ∧
      mkChunk "x" " " (create_chunk_metadata none none 0 0 "content") 1 =
        Except.error (PyErr.valueError "Chunk content cannot be empty") := by
  refine ⟨by decide, by decide, by decide, ?_⟩
  rfl

/-- Witness for C7 at concrete inputs. -/
theorem chunk_validation_witness :
    ∃ msg, mkChunk "" "hello" (create_chunk_metadata none none 0 0 "content") 5 =
      Except.error (PyErr.valueError msg) :=
  (chunk_validation_amended "" "hello" (create_chunk_metadata none none 0 0 "content") 5).2
    (Or.inr (Or.inl rfl))

/-- C9: get_by_id returns None (not an exception) when the store reply has
no ids or when the store raised, and any hit carries the perfect-match
sentinel: similarity score and normalized score both exactly 1. -/
theorem get_by_id_spec :
    ∀ (doc_id : String) (reply : Except PyErr GetReply),
      (∀ g : GetReply, reply = Except.ok g → g.ids = [] → get_by_id doc_id reply = none) ∧
      (∀ e, reply = Except.error e → get_by_id doc_id reply = none) ∧
      (∀ r, get_by_id doc_id reply = some r →
        r.similarity_score = 1 ∧ r.normalized_score = 1 ∧ r.id = doc_id) := by
  intro doc_id reply
  refine ⟨?_, ?_, ?_⟩
  · intro g hg hids
    subst hg
    simp [get_by_id, hids]
  · intro e he
    subst he
    rfl
  · intro r hr
    unfold get_by_id at hr
    split at hr
    · simp at hr
    · split at hr
      · simp at hr
      · split_ifs at hr
        split at hr
        · simp at hr
        · split at hr
          · simp at hr
          · simp only [Option.some.injEq] at hr
            subst hr
            refine ⟨rfl, ?_, rfl⟩
            show (if (1 : ℚ) = 0 then 1 else 1) = 1
            rw [if_neg one_ne_zero]

/-- Witness for C9 at concrete inputs: a miss yields None; a hit carries
the sentinel scores. -/
theorem get_by_id_witness :
    get_by_id "missing" (Except.ok ⟨[], [], []⟩) = none ∧
      ((mkRetrievalResult "d" "text" [("k", "v")] 1 (some 1)).similarity_score = 1 ∧
        (mkRetrievalResult "d" "text" [("k", "v")] 1 (some 1)).normalized_score = 1 ∧
        (mkRetrievalResult "d" "text" [("k", "v")] 1 (some 1)).id = "d") :=
  ⟨(get_by_id_spec "missing" (Except.ok ⟨[], [], []⟩)).1 ⟨[], [], []⟩ rfl rfl,
   (get_by_id_spec "d"
      (Except.ok ⟨["d"], [some [("k", "v")]], [some "text"]⟩)).2.2
      (mkRetrievalResult "d" "text" [("k", "v")] 1 (some 1)) (by rfl)⟩

/-- C6: bulk_search runs search independently per query: every query of
the list has an entry holding exactly the result of an independent search
(the empty list when that search raised), every entry belongs to a query,
and a failure on one query does not affect the entries of the others. -/
theorem bulk_search_spec :
    ∀ (queries : List String) (searchFn : String → Except PyErr (List RetrievalResult)),
      (∀ q, q ∈ queries →
        (bulk_search queries searchFn).lookup q = some (bulkResultOf searchFn q)) ∧
      (∀ p, p ∈ bulk_search queries searchFn →
        p.1 ∈ queries ∧ p.2 = bulkResultOf searchFn p.1) ∧
      (∀ q e, q ∈ queries → searchFn q = Except.error e →
        (bulk_search queries searchFn).lookup q = some []) ∧
      (∀ q rs, q ∈ queries → searchFn q = Except.ok rs →
        (bulk_search queries searchFn).lookup q = some rs) := by
  intro queries searchFn
  have hrun : ∀ q, q ∈ queries →
      (bulk_search queries searchFn).lookup q = some (bulkResultOf searchFn q) := by
    intro q hq
    have hne : queries.isEmpty = false := by
      cases queries with
      | nil => cases hq
      | cons a l => rfl
    unfold bulk_search
    rw [hne]
    simp only [Bool.false_eq_true, if_false]
    exact bulkFold_lookup_mem searchFn queries [] q hq
  refine ⟨hrun, ?_, ?_, ?_⟩
  · intro p hp
    unfold bulk_search at hp
    by_cases he : queries.isEmpty
    · rw [if_pos he] at hp
      cases hp
    · rw [if_neg he] at hp
      rcases bulkFold_mem searchFn queries [] p hp with h | h
      · exact h
      · cases h
  · intro q e hq herr
    rw [hrun q hq]
    unfold bulkResultOf
    rw [herr]
  · intro q rs hq hok
    rw [hrun q hq]
    unfold bulkResultOf
    rw [hok]

/-- Witness for C6: two queries, the second raising; both entries exist,
the failed one maps to the empty list, the other to its own result. -/
theorem bulk_search_witness :
    (bulk_search ["q1", "q2"]
      (fun q => if q = "q2" then Except.error (PyErr.valueError "boom")
        else Except.ok [mkRetrievalResult "i" "c" [] 1 none])).lookup "q2" = some [] ∧
    (bulk_search ["q1", "q2"]
      (fun q => if q = "q2" then Except.error (PyErr.valueError "boom")
        else Except.ok [mkRetrievalResult "i" "c" [] 1 none])).lookup "q1" =
      some [mkRetrievalResult "i" "c" [] 1 none] :=
  ⟨(bulk_search_spec ["q1", "q2"] _).2.2.1 "q2" (PyErr.valueError "boom")
      (by simp) (by simp),
   (bulk_search_spec ["q1", "q2"] _).2.2.2 "q1" [mkRetrievalResult "i" "c" [] 1 none]
      (by simp) (by simp)⟩

/-- C4: _normalize_scores is a no-op on the empty list, modifies no field
other than normalized_score, sets every normalized score to 1 when all
similarity scores coincide, and otherwise applies min-max scaling so that
a maximal result gets exactly 1 and a minimal result exactly 0. -/
theorem normalize_scores_spec :
    (normalize_scores [] = []) ∧
    (∀ rs : List RetrievalResult,
      (normalize_scores rs).map (fun r => (r.id, r.content, r.metadata, r.similarity_score)) =
        rs.map (fun r => (r.id, r.content, r.metadata, r.similarity_score))) ∧
    (∀ rs : List RetrievalResult, rs ≠ [] →
      (∀ r1 ∈ rs, ∀ r2 ∈ rs, r1.similarity_score = r2.similarity_score) →
      ∀ r ∈ normalize_scores rs, r.normalized_score = 1) ∧
    (∀ rs : List RetrievalResult,
      (∃ r1 ∈ rs, ∃ r2 ∈ rs, r1.similarity_score ≠ r2.similarity_score) →
      ∃ mn mx : ℚ,
        mn ∈ rs.map (fun r => r.similarity_score) ∧
        mx ∈ rs.map (fun r => r.similarity_score) ∧
        (∀ s ∈ rs.map (fun r => r.similarity_score), mn ≤ s ∧ s ≤ mx) ∧
        mn < mx ∧
        ∀ (i : Nat) (hi : i < rs.length) (hi2 : i < (normalize_scores rs).length),
          ((normalize_scores rs).get ⟨i, hi2⟩).normalized_score =
            ((rs.get ⟨i, hi⟩).similarity_score - mn) / (mx - mn) ∧
          ((rs.get ⟨i, hi⟩).similarity_score = mx →
            ((normalize_scores rs).get ⟨i, hi2⟩).normalized_score = 1) ∧
          ((rs.get ⟨i, hi⟩).similarity_score = mn →
            ((normalize_scores rs).get ⟨i, hi2⟩).normalized_score = 0)) := by
  refine ⟨rfl, ?_, ?_, ?_⟩
  · intro rs
    cases rs with
    | nil => rfl
    | cons r0 rest =>
        simp only [normalize_scores]
        split_ifs <;>
          · rw [List.map_map]
            refine congrFun (congrArg List.map ?_) _
            funext x
            rfl
  · intro rs hne hall r hr
    cases rs with
    | nil => exact absurd rfl hne
    | cons r0 rest =>
        have hallsim : ∀ s ∈ (r0 :: rest).map (fun x => x.similarity_score),
            s = r0.similarity_score := by
          intro s hs
          obtain ⟨r1, hr1, he⟩ := List.mem_map.mp hs
          rw [← he]
          exact hall r1 hr1 r0 (List.mem_cons_self r0 rest)
        have hminmem := pyMin_mem (rest.map (fun x => x.similarity_score)) r0.similarity_score
        have hmaxmem := pyMax_mem (rest.map (fun x => x.similarity_score)) r0.similarity_score
        have hmin : pyMin r0.similarity_score (rest.map (fun x => x.similarity_score)) =
            r0.similarity_score := by
          rcases hminmem with h | h
          · exact h
          · exact hallsim _ (List.mem_cons_of_mem _ h)
        have hmax : pyMax r0.similarity_score (rest.map (fun x => x.similarity_score)) =
            r0.similarity_score := by
          rcases hmaxmem with h | h
          · exact h
          · exact hallsim _ (List.mem_cons_of_mem _ h)
        simp only [normalize_scores] at hr
        rw [if_pos (by rw [hmin, hmax])] at hr
        obtain ⟨r1, _, he⟩ := List.mem_map.mp hr
        rw [← he]
  · intro rs hex
    cases rs with
    | nil => simp at hex
    | cons r0 rest =>
        have hminmem := pyMin_mem (rest.map (fun x => x.similarity_score)) r0.similarity_score
        have hmaxmem := pyMax_mem (rest.map (fun x => x.similarity_score)) r0.similarity_score
        have hminle := pyMin_le (rest.map (fun x => x.similarity_score)) r0.similarity_score
        have hmaxle := pyMax_le (rest.map (fun x => x.similarity_score)) r0.similarity_score
        refine ⟨pyMin r0.similarity_score (rest.map (fun x => x.similarity_score)),
          pyMax r0.similarity_score (rest.map (fun x => x.similarity_score)), ?_, ?_, ?_, ?_, ?_⟩
        · rcases hminmem with h | h
          · rw [h]
            exact List.mem_map.mpr ⟨r0, List.mem_cons_self r0 rest, rfl⟩
          · rw [List.map_cons]
            exact List.mem_cons_of_mem _ h
        · rcases hmaxmem with h | h
          · rw [h]
            exact List.mem_map.mpr ⟨r0, List.mem_cons_self r0 rest, rfl⟩
          · rw [List.map_cons]
            exact List.mem_cons_of_mem _ h
        · intro s hs
          rw [List.map_cons] at hs
          rcases List.mem_cons.mp hs with e | hm
          · rw [e]
            exact ⟨hminle.1, hmaxle.1⟩
          · exact ⟨hminle.2 s hm, hmaxle.2 s hm⟩
        · have hlt : pyMin r0.similarity_score (rest.map (fun x => x.similarity_score)) ≤
              pyMax r0.similarity_score (rest.map (fun x => x.similarity_score)) :=
            le_trans hminle.1 hmaxle.1
          refine lt_of_le_of_ne hlt ?_
          intro heq
          obtain ⟨r1, hr1, r2, hr2, hne12⟩ := hex
          have h1 : r1.similarity_score ∈ (r0 :: rest).map (fun x => x.similarity_score) :=
            List.mem_map.mpr ⟨r1, hr1, rfl⟩
          have h2 : r2.similarity_score ∈ (r0 :: rest).map (fun x => x.similarity_score) :=
            List.mem_map.mpr ⟨r2, hr2, rfl⟩
          rw [List.map_cons] at h1 h2
          have b1 : pyMin r0.similarity_score (rest.map (fun x => x.similarity_score)) ≤
              r1.similarity_score := by
            rcases List.mem_cons.mp h1 with e | hm
            · rw [e]
              exact hminle.1
            · exact hminle.2 _ hm
          have b2 : r1.similarity_score ≤
              pyMax r0.similarity_score (rest.map (fun x => x.similarity_score)) := by
            rcases List.mem_cons.mp h1 with e | hm
            · rw [e]
              exact hmaxle.1
            · exact hmaxle.2 _ hm
          have b3 : pyMin r0.similarity_score (rest.map (fun x => x.similarity_score)) ≤
              r2.similarity_score := by
            rcases List.mem_cons.mp h2 with e | hm
            · rw [e]
              exact hminle.1
            · exact hminle.2 _ hm
          have b4 : r2.similarity_score ≤
              pyMax r0.similarity_score (rest.map (fun x => x.similarity_score)) := by
            rcases List.mem_cons.mp h2 with e | hm
            · rw [e]
              exact hmaxle.1
            · exact hmaxle.2 _ hm
          apply hne12
          have e1 : r1.similarity_score =
              pyMin r0.similarity_score (rest.map (fun x => x.similarity_score)) :=
            le_antisymm (heq ▸ b2) b1
          have e2 : r2.similarity_score =
              pyMin r0.similarity_score (rest.map (fun x => x.similarity_score)) :=
            le_antisymm (heq ▸ b4) b3
          rw [e1, e2]
        · intro i hi hi2
          have hne : pyMax r0.similarity_score (rest.map (fun x => x.similarity_score)) ≠
              pyMin r0.similarity_score (rest.map (fun x => x.similarity_score)) := by
            intro heq
            obtain ⟨r1, hr1, r2, hr2, hne12⟩ := hex
            have h1 : r1.similarity_score ∈ (r0 :: rest).map (fun x => x.similarity_score) :=
              List.mem_map.mpr ⟨r1, hr1, rfl⟩
            have h2 : r2.similarity_score ∈ (r0 :: rest).map (fun x => x.similarity_score) :=
              List.mem_map.mpr ⟨r2, hr2, rfl⟩
            rw [List.map_cons] at h1 h2
            have hminle := pyMin_le (rest.map (fun x => x.similarity_score)) r0.similarity_score
            have hmaxle := pyMax_le (rest.map (fun x => x.similarity_score)) r0.similarity_score
            have b1 : pyMin r0.similarity_score (rest.map (fun x => x.similarity_score)) ≤
                r1.similarity_score := by
              rcases List.mem_cons.mp h1 with e | hm
              · rw [e]
                exact hminle.1
              · exact hminle.2 _ hm
            have b2 : r1.similarity_score ≤
                pyMax r0.similarity_score (rest.map (fun x => x.similarity_score)) := by
              rcases List.mem_cons.mp h1 with e | hm
              · rw [e]
                exact hmaxle.1
              · exact hmaxle.2 _ hm
            have b3 : pyMin r0.similarity_score (rest.map (fun x => x.similarity_score)) ≤
                r2.similarity_score := by
              rcases List.mem_cons.mp h2 with e | hm
              · rw [e]
                exact hminle.1
              · exact hminle.2 _ hm
            have b4 : r2.similarity_score ≤
                pyMax r0.similarity_score (rest.map (fun x => x.similarity_score)) := by
              rcases List.mem_cons.mp h2 with e | hm
              · rw [e]
                exact hmaxle.1
              · exact hmaxle.2 _ hm
            apply hne12
            have e1 : r1.similarity_score =
                pyMin r0.similarity_score (rest.map (fun x => x.similarity_score)) :=
              le_antisymm (heq ▸ b2) b1
            have e2 : r2.similarity_score =
                pyMin r0.similarity_score (rest.map (fun x => x.similarity_score)) :=
              le_antisymm (heq ▸ b4) b3
            rw [e1, e2]
          have hsub : pyMax r0.similarity_score (rest.map (fun x => x.similarity_score)) -
              pyMin r0.similarity_score (rest.map (fun x => x.similarity_score)) ≠ 0 :=
            sub_ne_zero_of_ne hne
          have hnorm : normalize_scores (r0 :: rest) = (r0 :: rest).map (fun x =>
              ⟨x.id, x.content, x.metadata, x.similarity_score,
                (x.similarity_score -
                  pyMin r0.similarity_score (rest.map (fun y => y.similarity_score))) /
                (pyMax r0.similarity_score (rest.map (fun y => y.similarity_score)) -
                  pyMin r0.similarity_score (rest.map (fun y => y.similarity_score)))⟩) := by
            simp only [normalize_scores]
            rw [if_neg hne]
          have hget : ((normalize_scores (r0 :: rest)).get ⟨i, hi2⟩).normalized_score =
              (((r0 :: rest).get ⟨i, hi⟩).similarity_score -
                pyMin r0.similarity_score (rest.map (fun y => y.similarity_score))) /
              (pyMax r0.similarity_score (rest.map (fun y => y.similarity_score)) -
                pyMin r0.similarity_score (rest.map (fun y => y.similarity_score))) := by
            have := List.get_of_eq hnorm ⟨i, hi2⟩
            rw [this, List.get_map]
          refine ⟨hget, ?_, ?_⟩
          · intro hmx
            rw [hget, hmx, div_self hsub]
          · intro hmn
            rw [hget, hmn, sub_self, zero_div]

/-- Witness for C4: the all-equal branch applied to a singleton list. -/
theorem normalize_scores_witness :
    (⟨"a", "ca", [], 1/2, 1⟩ : RetrievalResult).normalized_score = 1 :=
  normalize_scores_spec.2.2.1 [mkRetrievalResult "a" "ca" [] (1/2) none]
    (by simp)
    (by
      intro r1 h1 r2 h2
      rw [List.mem_singleton] at h1 h2
      rw [h1, h2])
    ⟨"a", "ca", [], 1/2, 1⟩
    (by
      have h1 : normalize_scores [mkRetrievalResult "a" "ca" [] (1/2) none] =
          [⟨"a", "ca", [], 1/2, 1⟩] := by
        simp only [normalize_scores]
        rw [if_pos (show pyMax (mkRetrievalResult "a" "ca" [] (1/2) none).similarity_score
          (List.map (fun x => x.similarity_score) ([] : List RetrievalResult)) =
          pyMin (mkRetrievalResult "a" "ca" [] (1/2) none).similarity_score
          (List.map (fun x => x.similarity_score) ([] : List RetrievalResult)) from rfl)]
        rfl
      rw [h1]
      exact List.mem_singleton.mpr rfl)

/-- C5: every result search returns has a similarity score of exactly
1 minus the distance the store reported for it, and no returned result's
similarity score is below the configured threshold (the filter discards,
it does not re-rank). -/
theorem search_threshold_spec :
    ∀ (query : String) (threshold : ℚ) (incl : Option (List String))
      (reply : Except PyErr QueryReply) (res : List RetrievalResult),
      search query threshold incl reply = Except.ok res →
      ∀ r ∈ res,
        threshold ≤ r.similarity_score ∧
        ∃ (g : QueryReply) (ids0 : List String) (d0 : List ℚ) (j : Nat),
          reply = Except.ok g ∧ g.ids.get? 0 = some ids0 ∧
          g.distances.get? 0 = some d0 ∧
          ids0.get? j = some r.id ∧ d0.get? j = some (1 - r.similarity_score) := by
  intro query threshold incl reply res hok r hr
  unfold search at hok
  split_ifs at hok
  cases reply with
  | error e => simp at hok
  | ok g =>
      obtain ⟨gids, gdist, gmet, gdoc⟩ := g
      rcases gids with _ | ⟨ids0, idsRest⟩
      · simp only [Except.ok.injEq] at hok
        subst hok
        cases hr
      · rcases ids0 with _ | ⟨firstId, moreIds⟩
        · simp only [List.isEmpty_nil, if_true, Except.ok.injEq] at hok
          subst hok
          cases hr
        · simp only [List.isEmpty_cons, Bool.false_eq_true, if_false] at hok
          rcases gdist with _ | ⟨d0, distRest⟩
          · simp at hok
          · simp only [List.get?] at hok
            rcases hsl : searchLoop threshold incl d0 gmet gdoc (firstId :: moreIds) 0
              with e | rs2 <;> rw [hsl] at hok
            · simp at hok
            · simp only [Except.ok.injEq] at hok
              subst hok
              obtain ⟨r2, hr2, hid, _, _, hsim⟩ := normalize_scores_mem rs2 r hr
              obtain ⟨hth, j, hj1, hj2⟩ :=
                searchLoop_ok threshold incl d0 gmet gdoc (firstId :: moreIds) 0 rs2 hsl r2 hr2
              rw [← hsim] at hth hj2
              rw [← hid] at hj1
              exact ⟨hth, ⟨(firstId :: moreIds) :: idsRest, d0 :: distRest, gmet, gdoc⟩,
                firstId :: moreIds, d0, j, rfl, rfl, rfl, hj1, by rw [Nat.zero_add] at hj2; exact hj2⟩

/-- Witness for C5 at a concrete reply: the surviving result's similarity
score (1 minus distance 1/10) is at or above the 7/10 threshold. -/
theorem search_threshold_witness :
    (7/10 : ℚ) ≤
      (⟨"a", "ta", [("k", "v")], 1 - 1/10, 1⟩ : RetrievalResult).similarity_score := by
  have hstep : searchLoop (7/10) none [1/10, 1/2] [[some [("k", "v")], none]]
      [[some "ta", some "tb"]] ["a", "b"] 0 =
      Except.ok [mkRetrievalResult "a" "ta" [("k", "v")] (1 - 1/10) none] := by
    simp only [searchLoop, List.get?, Option.bind]
    rw [if_neg (by norm_num), if_pos (by norm_num)]
    rfl
  have hok : search "q" (7/10) none
      (Except.ok ⟨[["a", "b"]], [[1/10, 1/2]], [[some [("k", "v")], none]],
        [[some "ta", some "tb"]]⟩) =
      Except.ok (normalize_scores [mkRetrievalResult "a" "ta" [("k", "v")] (1 - 1/10) none]) := by
    unfold search
    rw [if_neg (by decide)]
    simp only [List.isEmpty_cons, Bool.false_eq_true, if_false, List.get?]
    rw [hstep]
  have hmem : (⟨"a", "ta", [("k", "v")], 1 - 1/10, 1⟩ : RetrievalResult) ∈
      normalize_scores [mkRetrievalResult "a" "ta" [("k", "v")] (1 - 1/10) none] := by
    have h1 : normalize_scores [mkRetrievalResult "a" "ta" [("k", "v")] (1 - 1/10) none] =
        [⟨"a", "ta", [("k", "v")], 1 - 1/10, 1⟩] := by
      simp only [normalize_scores]
      rw [if_pos (show pyMax (mkRetrievalResult "a" "ta" [("k", "v")] (1 - 1/10)
        none).similarity_score (List.map (fun x => x.similarity_score)
          ([] : List RetrievalResult)) =
        pyMin (mkRetrievalResult "a" "ta" [("k", "v")] (1 - 1/10) none).similarity_score
          (List.map (fun x => x.similarity_score) ([] : List RetrievalResult)) from rfl)]
      rfl
    rw [h1]
    exact List.mem_singleton.mpr rfl
  exact (search_threshold_spec "q" (7/10) none _ _ hok _ hmem).1

/-- C3 (corrected): chunk id generation is deterministic; equal ids force
equal positions, so changing only the position always changes the id;
changing only the content, or only the chapter between distinct truthy
values or from absent to truthy, changes the sha256 input (hence the id
whenever the truncated hashes differ); but an empty-string chapter is
treated as absent, so (content, position, None) and (content, position,
"") yield the same id. -/
theorem chunk_id_amended :
    (∀ (c : String) (p : Int) (ch : Option String) (c' : String) (p' : Int)
      (ch' : Option String), c = c' → p = p' → ch = ch' →
      generate_chunk_id c p ch = generate_chunk_id c' p' ch') ∧
    (∀ (c c' : String) (p p' : Int) (ch ch' : Option String),
      generate_chunk_id c p ch = generate_chunk_id c' p' ch' → p = p') ∧
    (∀ (c c' : String) (p : Int) (ch : Option String), c ≠ c' →
      chunkHashInput c p ch ≠ chunkHashInput c' p ch) ∧
    (∀ (c : String) (p : Int) (ch ch' : String), ch ≠ "" → ch' ≠ "" → ch ≠ ch' →
      chunkHashInput c p (some ch) ≠ chunkHashInput c p (some ch')) ∧
    (∀ (c : String) (p : Int) (ch' : String), ch' ≠ "" →
      chunkHashInput c p none ≠ chunkHashInput c p (some ch')) ∧
    (∀ (c : String) (p : Int),
      generate_chunk_id c p none = generate_chunk_id c p (some "")) := by
  refine ⟨?_, ?_, ?_, ?_, ?_, ?_⟩
  · intro c p ch c' p' ch' h1 h2 h3
    rw [h1, h2, h3]
  · exact fun c c' p p' ch ch' h => generate_chunk_id_position c c' p p' ch ch' h
  · intro c c' p ch hne h
    apply hne
    have hd := congrArg String.data h
    rw [chunkHashInput_data, chunkHashInput_data] at hd
    exact String.ext (List.append_cancel_right hd)
  · intro c p ch ch' hch hch' hne h
    apply hne
    have hd := congrArg String.data h
    rw [chunkHashInput_data, chunkHashInput_data] at hd
    have h1 := List.append_cancel_left hd
    have h2 := List.append_cancel_left h1
    have h3 := List.append_cancel_left h2
    simp only [chapterSuffix, if_neg hch, if_neg hch'] at h3
    exact String.ext (List.append_cancel_left h3)
  · intro c p ch' hch' h
    have hd := congrArg String.data h
    rw [chunkHashInput_data, chunkHashInput_data] at hd
    have h1 := List.append_cancel_left hd
    have h2 := List.append_cancel_left h1
    have h3 := List.append_cancel_left h2
    simp only [chapterSuffix, if_neg hch'] at h3
    have hlen := congrArg List.length h3
    simp only [List.length_nil, List.length_append] at hlen
    have hpos : ch'.data ≠ [] := by
      intro he
      exact hch' (String.ext he)
    have : 0 < ch'.data.length := List.length_pos.mpr hpos
    omega
  · intro c p
    rfl

/-- C3 counterexample: the triples (\"a\", 1, None) and (\"a\", 1, \"\")
differ only in the chapter component, yet generate the same chunk id. -/
theorem chunk_id_counterexample :
    (none : Option String) ≠ some "" ∧
    generate_chunk_id "a" 1 none = generate_chunk_id "a" 1 (some "") :=
  ⟨by simp, rfl⟩

/-- Witness for C3 at concrete inputs. -/
theorem chunk_id_witness :
    chunkHashInput "a" 0 none ≠ chunkHashInput "b" 0 none ∧
    chunkHashInput "a" 0 (some "x") ≠ chunkHashInput "a" 0 (some "y") ∧
    chunkHashInput "a" 0 none ≠ chunkHashInput "a" 0 (some "y") ∧
    (5 : Int) = 5 :=
  ⟨chunk_id_amended.2.2.1 "a" "b" 0 none (by decide),
   chunk_id_amended.2.2.2.1 "a" 0 "x" "y" (by decide) (by decide) (by decide),
   chunk_id_amended.2.2.2.2.1 "a" 0 "y" (by decide),
   chunk_id_amended.2.1 "a" "a" 5 5 none none rfl⟩

/-- The character tokenizer round-trips every slice of an encoded
document. -/
theorem charTok_roundtrip (s : String) : ∀ (i : Nat) (e : Int),
    charTok.encode (charTok.decode (pySlice (charTok.encode s) i e)) =
      pySlice (charTok.encode s) i e := by
  intro i e
  have hmap : pySlice (charTok.encode s) i e = (pySlice s.data i e).map Char.toNat := by
    show pySlice (s.data.map Char.toNat) i e = _
    simp only [pySlice, List.length_map]
    rw [← List.map_take, ← List.map_drop]
  rw [hmap]
  show (((pySlice s.data i e).map Char.toNat).map Char.ofNat).map Char.toNat =
    (pySlice s.data i e).map Char.toNat
  have hgen : ∀ l : List Char, ((l.map Char.toNat).map Char.ofNat).map Char.toNat =
      l.map Char.toNat := by
    intro l
    induction l with
    | nil => rfl
    | cons c t ih => simp [Char.ofNat_toNat, ih]
  exact hgen _

/-- C1 (corrected): in token-only mode every chunk's token count equals
the tokenizer count of its content whenever the tokenizer's decode-encode
round-trip preserves slices of the encoded document, and in structure
mode every heading chunk's token count equals the tokenizer count of its
content (buffered content chunks are excluded: the counterexample shows
their count omits the join separators). -/
theorem token_count_amended :
    (∀ (cfg : ChunkerCfg) (tok : Tokenizer) (content : String),
      (∀ (i : Nat) (e : Int),
        tok.encode (tok.decode (pySlice (tok.encode content) i e)) =
          pySlice (tok.encode content) i e) →
      ∀ c ∈ (chunk_by_tokens cfg tok content).1,
        c.token_count = countTokens tok c.content) ∧
    (∀ (cfg : ChunkerCfg) (tok : Tokenizer) (content : String),
      ∀ c ∈ (chunk_by_structure cfg tok content).1,
        c.metadata.chunk_type = "heading" →
          c.token_count = countTokens tok c.content) := by
  constructor
  · intro cfg tok content hrt c hc
    obtain ⟨start, hcontent, htc, -⟩ :=
      tokenLoopGo_emitted cfg tok (tok.encode content) _ 0 0 c hc
    rw [htc, hcontent]
    unfold countTokens
    rw [hrt start _]
  · intro cfg tok content c hc hhead
    exact structLoop_heading cfg tok _ _ (fun m hm => by cases hm) c hc hhead

/-- C1 counterexample: in structure mode the buffered chunk "a\n\nb" is
emitted with token_count 2 (the sum of its paragraphs' counts), while the
tokenizer count of its content is 4 — the join separators are uncounted. -/
theorem token_count_counterexample :
    (chunk_by_structure ⟨512, 50, 50⟩ charTok "# T\na\n\nb").1.map
      (fun c => (c.content, c.token_count)) = [("T", 1), ("a\n\nb", 2)] ∧
    countTokens charTok "a\n\nb" = 4 ∧ (2 : Int) ≠ 4 :=
  ⟨by decide, by decide, by decide⟩

/-- Witness for C1 on a concrete token-mode run. -/
theorem token_count_witness :
    (⟨"chunk_25309c9b9aa4_0", "ab", create_chunk_metadata none none 0 0 "content", 2⟩ :
      Chunk).token_count =
      countTokens charTok (⟨"chunk_25309c9b9aa4_0", "ab",
        create_chunk_metadata none none 0 0 "content", 2⟩ : Chunk).content :=
  token_count_amended.1 ⟨2, 1, 0⟩ charTok "abcd" (charTok_roundtrip "abcd") _ (by decide)

/-- C2 (corrected): in token-only mode, for a non-negative max_tokens, no
emitted chunk's token count exceeds max_tokens; structure mode does not
obey the bound (a single element larger than max_tokens is emitted
whole, as the counterexample shows). -/
theorem max_tokens_amended :
    ∀ (cfg : ChunkerCfg) (tok : Tokenizer) (content : String), 0 ≤ cfg.max_tokens →
      ∀ c ∈ (chunk_by_tokens cfg tok content).1, c.token_count ≤ cfg.max_tokens := by
  intro cfg tok content hmax c hc
  obtain ⟨start, -, htc, -⟩ :=
    tokenLoopGo_emitted cfg tok (tok.encode content) _ 0 0 c hc
  rw [htc]
  exact pySlice_min_length (tok.encode content) start cfg hmax

/-- C2 counterexample: with max_tokens 3, structure mode emits the
five-token paragraph "hello" as a single chunk with token_count 5 > 3. -/
theorem max_tokens_counterexample :
    (chunk_by_structure ⟨3, 1, 0⟩ charTok "# T\nhello").1.map
      (fun c => (c.content, c.token_count)) = [("T", 1), ("hello", 5)] ∧
    ¬ ((5 : Int) ≤ 3) :=
  ⟨by decide, by decide⟩

/-- Witness for C2 on a concrete token-mode run. -/
theorem max_tokens_witness :
    (⟨"chunk_b380c7f72ff3_1", "cd", create_chunk_metadata none none 0 1 "content", 2⟩ :
      Chunk).token_count ≤ (⟨2, 1, 0⟩ : ChunkerCfg).max_tokens :=
  max_tokens_amended ⟨2, 1, 0⟩ charTok "abcd" (by decide) _ (by decide)

/-- C8 (corrected): token-only mode encodes the document once and every
emitted chunk is the decode of a contiguous window tokens[i : i+max],
with its token count the window length; a window below min_tokens is
emitted only when it reaches the end of the token stream. The advance is
max(i+1, end−overlap), so it equals max(1, max_tokens−overlap_tokens)
only while windows do not reach the stream end; the counterexample shows
emitted windows advancing by a single token. -/
theorem token_window_amended :
    ∀ (cfg : ChunkerCfg) (tok : Tokenizer) (content : String),
      ∀ c ∈ (chunk_by_tokens cfg tok content).1,
        isWindowOf cfg tok (tok.encode content) c := by
  intro cfg tok content c hc
  exact tokenLoopGo_emitted cfg tok (tok.encode content) _ 0 0 c hc

/-- C8 counterexample: with max_tokens 8, min_tokens 7, overlap 6 on a
ten-token document the loop emits eight windows, including consecutive
windows one token apart (not max−overlap = 2) and sub-min_tokens windows
that are not the final window. -/
theorem token_window_counterexample :
    (chunk_by_tokens ⟨8, 7, 6⟩ charTok "0123456789").1.map
      (fun c => (c.content, c.token_count)) =
      [("01234567", 8), ("23456789", 8), ("456789", 6), ("56789", 5), ("6789", 4),
        ("789", 3), ("89", 2), ("9", 1)] ∧
    ((8 : Int) - 6 = 2) :=
  ⟨by decide, by decide⟩

/-- Witness for C8 on a concrete token-mode run. -/
theorem token_window_witness :
    isWindowOf ⟨8, 7, 6⟩ charTok (charTok.encode "0123456789")
      ⟨"chunk_07136eb2215b_7", "9", create_chunk_metadata none none 0 7 "content", 1⟩ :=
  token_window_amended ⟨8, 7, 6⟩ charTok "0123456789" _ (by decide)

end VoiceHelper
